import Mathlib

/-!
Verification of the mqns/SimQN proactive-routing quantum network simulator
against its natural-language specification.

The definitions below are shallow embeddings of the Python sources:

* `qns/simulator/event.py` (`Event` comparison, equality and hash),
* `mqns/simulator/pool.py` (`DefaultEventPool` over CPython's `heapq`),
* `mqns/utils/random.py` (`set_seed` and the global RNG streams),
* `qns/network/protocol/link_layer.py` (`loss_based_success_prob`,
  `skip_ahead_entanglement`, `generate_entanglement`, `handle_negociation`,
  `handle_event` for channel activation),
* `qns/network/protocol/proactive_routing.py` (`eval_swapping_conditions`,
  `handle_event` for `QubitEntangledEvent`, `handle_signaling` for
  `SWAP_UPDATE`),
* `qns/entity/memory/memory.py` (`QuantumMemory.write`),
* `qns/network/proactive/mux_statistical.py` (`_intersect_tmp_path_ids`,
  `MuxSchemeStatistical.swapping_succeeded`) and the other mux schemes,
* `mqns/network/proactive/cutoff.py` (`CutoffSchemeWaitTime._release_qubit`).

Python `int` is modelled by `Int`, float arithmetic by exact `Rat`/`Real`
arithmetic, raised exceptions by `Except PyErr`, and `dict`/`list` state by
explicit records.  Stochastic draws are modelled by explicit streams of
pre-determined outputs: a pseudo-random generator is a pure function of its
seed, so a stream of outputs is an exact model of one generator.
-/

namespace Mqns

/-- Python exceptions raised by the embedded code.  `attributeError` models
an `AttributeError` from accessing a missing module attribute (for instance
`log.debut`, which does not exist on the logging module). -/
inductive PyErr where
  | exception : String → PyErr
  | attributeError : String → PyErr
  | keyError : String → PyErr
  | valueError : String → PyErr
  | indexError : PyErr
  | assertionError : PyErr
  | typeError : String → PyErr
deriving DecidableEq, Repr

/-! ### Events (`qns/simulator/event.py`)

`Event.__init__` stores `t : Time | None`, `name : str | None` and `by`.
`Time` (spec §3: `t` is an integer time slot) is modelled by `Int`.
The `by`/payload identity of the event object is modelled by a `Nat` tag. -/

/-- Embedding of `qns.simulator.event.Event`: the attributes that take part
in comparison, equality, hashing, plus `name` and the object identity of
`by` (`payload`) which do not. -/
structure PyEvent where
  t : Option Int
  name : Option String
  payload : Nat
deriving DecidableEq, Repr

/-- `Event.__eq__`: `isinstance(other, Event) and self.t == other.t`. -/
def pyEventEq (a b : PyEvent) : Bool :=
  a.t == b.t

/-- `Event.__lt__`: `if self.t is None or other.t is None: return other.t is
not None` else `self.t < other.t`. -/
def pyEventLt (a b : PyEvent) : Bool :=
  match a.t, b.t with
  | none, ob => ob.isSome
  | some _, none => false
  | some x, some y => decide (x < y)

/-- `Event.__hash__` returns `hash(self.t)`: a function of `t` alone.  The
hash of a Python object `t` is a deterministic function of `t`, so the
embedding keeps the argument of `hash` itself. -/
def pyEventHash (e : PyEvent) : Option Int :=
  e.t

/-! ### The scheduler heap (`mqns/simulator/pool.py` over CPython `heapq`)

`DefaultEventPool` stores events in a Python list manipulated exclusively by
`heapq.heappush` / `heapq.heappop`.  Events are compared by `Event.__lt__`,
i.e. by the time slot only.  The CPython `heapq` sift routines are embedded
verbatim below; the `while` loops are realised by structural recursion on a
fuel argument that bounds the iteration count (`_siftdown` walks strictly
decreasing positions, so `fuel = pos` suffices; `_siftup` exits as soon as
`2*pos+1 ≥ len`, so the invariant `len ≤ 2*pos+1+fuel` keeps the embedding
exactly equal to the unbounded loop). -/

/-- A scheduled event as ordered by the pool's heap: its integer time slot
(`Event.t.time_slot`) and the identity of the event object (`eid`), which
`Event.__lt__` ignores. -/
structure Ev where
  t : Int
  eid : Nat
deriving DecidableEq, Repr

/-- `Event.__lt__` on two events whose `t` is not `None`: compare time slots
only. -/
def evLt (a b : Ev) : Bool :=
  decide (a.t < b.t)

/-- CPython `heapq._siftdown(heap, startpos, pos)` with `newitem =
heap[pos]` passed explicitly; recursion on `fuel ≥ pos`. -/
def siftdownAux (startpos : Nat) (newitem : Ev) : Nat → Nat → List Ev → List Ev
  | 0, pos, l => l.set pos newitem
  | fuel + 1, pos, l =>
    if startpos < pos then
      let parentpos := (pos - 1) / 2
      match l[parentpos]? with
      | some parent =>
        if evLt newitem parent then
          siftdownAux startpos newitem fuel parentpos (l.set pos parent)
        else
          l.set pos newitem
      | none => l.set pos newitem
    else
      l.set pos newitem

/-- CPython `heapq._siftdown(heap, startpos, pos)`. -/
def siftdown (l : List Ev) (startpos pos : Nat) (newitem : Ev) : List Ev :=
  siftdownAux startpos newitem pos pos l

/-- Child selection of CPython `heapq._siftup`: position of the left child
`2*pos+1`, moved to the right child when the right child exists and
`not heap[childpos] < heap[rightpos]`. -/
def pickChild (l : List Ev) (pos : Nat) : Nat :=
  let childpos := 2 * pos + 1
  let rightpos := childpos + 1
  if rightpos < l.length then
    match l[childpos]?, l[rightpos]? with
    | some lc, some lr => if ¬ evLt lc lr then rightpos else childpos
    | _, _ => childpos
  else childpos

/-- CPython `heapq._siftup(heap, pos)` with `newitem = heap[pos]` passed
explicitly; `startpos` is the entry position, used by the trailing
`_siftdown` call.  The loop body moves the selected child up into the hole
and descends; on loop exit the trailing `_siftdown` bubbles `newitem` up. -/
def siftupAux (startpos : Nat) (newitem : Ev) : Nat → Nat → List Ev → List Ev
  | 0, pos, l => siftdown l startpos pos newitem
  | fuel + 1, pos, l =>
    if 2 * pos + 1 < l.length then
      let c := pickChild l pos
      match l[c]? with
      | some vc => siftupAux startpos newitem fuel c (l.set pos vc)
      | none => siftdown l startpos pos newitem
    else
      siftdown l startpos pos newitem

/-- CPython `heapq._siftup(heap, pos)`. -/
def siftup (l : List Ev) (pos : Nat) (newitem : Ev) : List Ev :=
  siftupAux pos newitem l.length pos l

/-- CPython `heapq.heappush`: append, then `_siftdown(heap, 0, len-1)`. -/
def heappush (l : List Ev) (item : Ev) : List Ev :=
  siftdown (l ++ [item]) 0 l.length item

/-- CPython `heapq.heappop`: pop the last element; if the heap is non-empty
place it at the root via `_siftup(heap, 0)` and return the old root.
Returns `none` for the empty heap (Python raises `IndexError`). -/
def heappop (l : List Ev) : Option (Ev × List Ev) :=
  match l.getLast? with
  | none => none
  | some lastelt =>
    let rest := l.dropLast
    match rest.head? with
    | none => some (lastelt, [])
    | some r0 => some (r0, siftup rest 0 lastelt)

/-- `mqns.simulator.pool.DefaultEventPool`: current slot `tc`, end slot `te`
(`none` models `math.inf`) and the heap list. -/
structure DefaultEventPool where
  tc : Int
  te : Option Int
  eventList : List Ev
deriving DecidableEq, Repr

/-- `DefaultEventPool.add_event`: reject events before `tc` or after `te`,
otherwise `heappush`.  Returns the new pool and whether the event was
inserted. -/
def addEvent (p : DefaultEventPool) (e : Ev) : DefaultEventPool × Bool :=
  if decide (e.t < p.tc) || (match p.te with | some te => decide (te < e.t) | none => false) then
    (p, false)
  else
    ({ p with eventList := heappush p.eventList e }, true)

/-- `DefaultEventPool.next_event`: pop the heap and advance `tc` to the
popped slot; on an empty heap set `tc := te` when `te` is finite and return
`none`. -/
def nextEvent (p : DefaultEventPool) : Option Ev × DefaultEventPool :=
  match heappop p.eventList with
  | some (e, rest) => (some e, { p with tc := e.t, eventList := rest })
  | none => (none, { p with tc := match p.te with | some te => te | none => p.tc })

/-- Pop `n` events in sequence from a pool (the scheduler main loop's pop
order, without invoking handlers). -/
def drain : Nat → DefaultEventPool → List Ev
  | 0, _ => []
  | n + 1, p =>
    match nextEvent p with
    | (some e, p2) => e :: drain n p2
    | (none, _) => []

/-! ### Heap ordering facts for the pool

`PC i c` is the parent-child relation on 0-based breadth-first heap indices,
`heapInv` the binary-heap invariant of the event list under the time-slot
order of `Event.__lt__`. -/

/-- Parent-child relation of heap indices: `c` is a child of `i` (the left
child `2*i+1` or the right child `2*i+1+1`). -/
def PC (i c : Nat) : Prop :=
  c = 2 * i + 1 ∨ c = 2 * i + 1 + 1

theorem PC.lt {i c : Nat} (h : PC i c) : i < c := by
  rcases h with h | h <;> omega

theorem PC.parent_eq {i c : Nat} (h : PC i c) : i = (c - 1) / 2 := by
  rcases h with h | h <;> omega

theorem PC.of_pos {c : Nat} (h : 0 < c) : PC ((c - 1) / 2) c := by
  unfold PC
  omega

/-- Binary-heap invariant of an event list: every parent's time slot is at
most each of its children's. -/
def heapInv (l : List Ev) : Prop :=
  ∀ i c : Nat, PC i c → ∀ (hi : i < l.length) (hc : c < l.length),
    (l[i]).t ≤ (l[c]).t

theorem heapInv_nil : heapInv [] := by
  intro i c _ hi _
  simp at hi

/-- Under the heap invariant, the root's time slot is minimal. -/
theorem heapInv.root_min {l : List Ev} (h : heapInv l) :
    ∀ (j : Nat) (hj : j < l.length) (h0 : 0 < l.length), (l[0]).t ≤ (l[j]).t := by
  intro j
  induction j using Nat.strong_induction_on with
  | _ j ih =>
    intro hj h0
    rcases Nat.eq_zero_or_pos j with rfl | hpos
    · exact le_refl _
    · have hpc : PC ((j - 1) / 2) j := PC.of_pos hpos
      have hlt : (j - 1) / 2 < j := by omega
      have hpj : (j - 1) / 2 < l.length := lt_trans hlt hj
      exact le_trans (ih _ hlt hpj h0) (h _ _ hpc hpj hj)

/-- Writing `x` at a hole position `pos` yields a heap, provided all pairs
avoiding `pos` are ordered, `x` fits below `pos`'s children, and `pos`'s
parent value fits below `x`. -/
theorem set_heapInv {l : List Ev} {pos : Nat} {x : Ev} (hpos : pos < l.length)
    (hA1 : ∀ i c, PC i c → i ≠ pos → c ≠ pos →
      ∀ (hi : i < l.length) (hc : c < l.length), (l[i]).t ≤ (l[c]).t)
    (hA2 : ∀ c, PC pos c → ∀ (hc : c < l.length), x.t ≤ (l[c]).t)
    (hUp : ∀ (hpp : 0 < pos) (hp : (pos - 1) / 2 < l.length), (l[(pos - 1) / 2]).t ≤ x.t) :
    heapInv (l.set pos x) := by
  intro i c hpc hi hc
  have hi2 : i < l.length := by simpa using hi
  have hc2 : c < l.length := by simpa using hc
  by_cases hip : i = pos
  · subst hip
    have hcp : c ≠ i := Nat.ne_of_gt hpc.lt
    rw [List.getElem_set_self (by simpa using hi2), List.getElem_set_ne (fun h => hcp h.symm) hc]
    exact hA2 c hpc hc2
  · by_cases hccp : c = pos
    · subst hccp
      have hpe : i = (c - 1) / 2 := hpc.parent_eq
      have hcpos : 0 < c := by
        have := hpc.lt
        omega
      rw [List.getElem_set_self (by simpa using hc2), List.getElem_set_ne (by omega) hi]
      have := hUp hcpos (hpe ▸ hi2)
      exact hpe ▸ this
    · rw [List.getElem_set_ne (fun h => hip h.symm) hi,
        List.getElem_set_ne (fun h => hccp h.symm) hc]
      exact hA1 i c hpc hip hccp hi2 hc2

/-- `heapq._siftdown` (bubble-up of `newitem` from the hole at `pos`)
re-establishes the heap invariant. -/
theorem siftdownAux_heapInv (x : Ev) :
    ∀ (fuel pos : Nat) (l : List Ev), pos ≤ fuel → pos < l.length →
      (∀ i c, PC i c → i ≠ pos → c ≠ pos →
        ∀ (hi : i < l.length) (hc : c < l.length), (l[i]).t ≤ (l[c]).t) →
      (∀ c, PC pos c → ∀ (hc : c < l.length), x.t ≤ (l[c]).t) →
      (∀ c, PC pos c → 0 < pos → ∀ (hc : c < l.length) (hp : (pos - 1) / 2 < l.length),
        (l[(pos - 1) / 2]).t ≤ (l[c]).t) →
      heapInv (siftdownAux 0 x fuel pos l) := by
  intro fuel
  induction fuel with
  | zero =>
    intro pos l hf hpos hA1 hA2 hC
    have hp0 : pos = 0 := Nat.le_zero.mp hf
    subst hp0
    simp only [siftdownAux]
    exact set_heapInv hpos hA1 hA2 (fun hpp _ => absurd hpp (by omega))
  | succ fuel ih =>
    intro pos l hf hpos hA1 hA2 hC
    simp only [siftdownAux]
    by_cases hp0 : 0 < pos
    · rw [if_pos hp0]
      have hpar : (pos - 1) / 2 < l.length := lt_trans (by omega) hpos
      rw [List.getElem?_eq_getElem hpar]
      simp only
      by_cases hcmp : evLt x (l[(pos - 1) / 2])
      · rw [if_pos hcmp]
        have hxlt : x.t < (l[(pos - 1) / 2]).t := by
          simpa [evLt] using hcmp
        set pp := (pos - 1) / 2 with hpp
        have hpplt : pp < pos := by omega
        apply ih pp (l.set pos (l[pp])) (by omega) (by simpa using lt_trans hpplt hpos)
        · -- pairs avoiding the new hole `pp`
          intro i c hpc hipp hcpp hi hc
          have hi2 : i < l.length := by simpa using hi
          have hc2 : c < l.length := by simpa using hc
          by_cases hip : i = pos
          · subst hip
            have hcp : c ≠ i := Nat.ne_of_gt hpc.lt
            rw [List.getElem_set_self (by simpa using hi2),
              List.getElem_set_ne (fun h => hcp h.symm) hc]
            exact hC c hpc hp0 hc2 hpar
          · by_cases hccp : c = pos
            · subst hccp
              exact absurd (hpc.parent_eq.trans (by omega)) hipp
            · rw [List.getElem_set_ne (fun h => hip h.symm) hi,
                List.getElem_set_ne (fun h => hccp h.symm) hc]
              exact hA1 i c hpc hip hccp hi2 hc2
        · -- x fits below the children of the new hole `pp`
          intro c hpc hc
          have hc2 : c < l.length := by simpa using hc
          by_cases hcp : c = pos
          · subst hcp
            rw [List.getElem_set_self (by simpa using hc2)]
            exact le_of_lt hxlt
          · rw [List.getElem_set_ne (fun h => hcp h.symm) hc]
            have hppne : pp ≠ pos := by omega
            have h1 : (l[pp]).t ≤ (l[c]).t := hA1 pp c hpc hppne hcp hpar hc2
            exact le_trans (le_of_lt hxlt) h1
        · -- the parent of the new hole fits below the hole's children
          intro c hpc hpp0 hc hq
          have hc2 : c < l.length := by simpa using hc
          have hq2 : (pp - 1) / 2 < l.length := by simpa using hq
          have hqlt : (pp - 1) / 2 < pp := by omega
          have hqne : (pp - 1) / 2 ≠ pos := by omega
          have hqpc : PC ((pp - 1) / 2) pp := PC.of_pos hpp0
          have hppne : pp ≠ pos := by omega
          have h1 : (l[(pp - 1) / 2]).t ≤ (l[pp]).t :=
            hA1 _ pp hqpc hqne hppne hq2 hpar
          rw [List.getElem_set_ne (fun h => hqne h.symm) hq]
          by_cases hcp : c = pos
          · subst hcp
            rw [List.getElem_set_self (by simpa using hc2)]
            exact h1
          · rw [List.getElem_set_ne (fun h => hcp h.symm) hc]
            have h2 : (l[pp]).t ≤ (l[c]).t := hA1 pp c hpc hppne hcp hpar hc2
            exact le_trans h1 h2
      · rw [if_neg hcmp]
        have hple : (l[(pos - 1) / 2]).t ≤ x.t := by
          simpa [evLt] using hcmp
        exact set_heapInv hpos hA1 hA2 (fun _ _ => hple)
    · rw [if_neg hp0]
      have hp0e : pos = 0 := by omega
      exact set_heapInv hpos hA1 hA2 (fun hpp _ => absurd hpp (by omega))

/-- `heapq.heappush` preserves the heap invariant. -/
theorem heappush_heapInv {l : List Ev} (h : heapInv l) (x : Ev) :
    heapInv (heappush l x) := by
  unfold heappush siftdown
  apply siftdownAux_heapInv x l.length l.length (l ++ [x]) (le_refl _)
  · simp
  · intro i c hpc hip hcp hi hc
    have hi2 : i < l.length := by
      have : i < l.length + 1 := by simpa using hi
      omega
    have hc2 : c < l.length := by
      have : c < l.length + 1 := by simpa using hc
      omega
    rw [List.getElem_append_left hi2, List.getElem_append_left hc2]
    exact h i c hpc hi2 hc2
  · intro c hpc hc
    have : c < l.length + 1 := by simpa using hc
    have := hpc.lt
    omega
  · intro c hpc _ hc _
    have : c < l.length + 1 := by simpa using hc
    have := hpc.lt
    omega

/-- Unfolding equation for `pickChild` when the left child exists. -/
theorem pickChild_eq {l : List Ev} {pos : Nat} (h : 2 * pos + 1 < l.length) :
    pickChild l pos =
      if hr : 2 * pos + 1 + 1 < l.length then
        if ¬ evLt (l[2 * pos + 1]) (l[2 * pos + 1 + 1]) then 2 * pos + 1 + 1
        else 2 * pos + 1
      else 2 * pos + 1 := by
  unfold pickChild
  by_cases hr : 2 * pos + 1 + 1 < l.length
  · rw [if_pos hr, dif_pos hr, List.getElem?_eq_getElem h, List.getElem?_eq_getElem hr]
  · rw [if_neg hr, dif_neg hr]

/-- The child selected by `heapq._siftup` is a child of `pos`. -/
theorem pickChild_pc {l : List Ev} {pos : Nat} (h : 2 * pos + 1 < l.length) :
    PC pos (pickChild l pos) := by
  rw [pickChild_eq h]
  unfold PC
  split_ifs <;> omega

/-- The child selected by `heapq._siftup` is in range. -/
theorem pickChild_lt {l : List Ev} {pos : Nat} (h : 2 * pos + 1 < l.length) :
    pickChild l pos < l.length := by
  rw [pickChild_eq h]
  split_ifs <;> omega

/-- The child selected by `heapq._siftup` carries the minimal time slot
among the children of `pos`. -/
theorem pickChild_min {l : List Ev} {pos : Nat} (h : 2 * pos + 1 < l.length)
    (hp : pickChild l pos < l.length) :
    ∀ d, PC pos d → ∀ (hd : d < l.length), (l[pickChild l pos]).t ≤ (l[d]).t := by
  intro d hpd hd
  have he := pickChild_eq h
  by_cases hr : 2 * pos + 1 + 1 < l.length
  · rw [dif_pos hr] at he
    by_cases hcmp : evLt (l[2 * pos + 1]) (l[2 * pos + 1 + 1])
    · rw [if_neg (by simpa using hcmp)] at he
      have hlt : (l[2 * pos + 1]).t < (l[2 * pos + 1 + 1]).t := by
        simpa [evLt] using hcmp
      simp only [he]
      rcases hpd with hd1 | hd2
      · subst hd1
        exact le_refl _
      · subst hd2
        exact le_of_lt hlt
    · rw [if_pos (by simpa using hcmp)] at he
      have hle : (l[2 * pos + 1 + 1]).t ≤ (l[2 * pos + 1]).t := by
        simpa [evLt] using hcmp
      simp only [he]
      rcases hpd with hd1 | hd2
      · subst hd1
        exact hle
      · subst hd2
        exact le_refl _
  · rw [dif_neg hr] at he
    simp only [he]
    rcases hpd with hd1 | hd2
    · subst hd1
      exact le_refl _
    · subst hd2
      exact absurd hd (by omega)

/-- `heapq._siftup` (descend the hole to a leaf, then bubble the item up)
re-establishes the heap invariant. -/
theorem siftupAux_heapInv (x : Ev) :
    ∀ (fuel pos : Nat) (l : List Ev), l.length ≤ 2 * pos + 1 + fuel → pos < l.length →
      (∀ i c, PC i c → i ≠ pos → c ≠ pos →
        ∀ (hi : i < l.length) (hc : c < l.length), (l[i]).t ≤ (l[c]).t) →
      (∀ c, PC pos c → 0 < pos → ∀ (hc : c < l.length) (hp : (pos - 1) / 2 < l.length),
        (l[(pos - 1) / 2]).t ≤ (l[c]).t) →
      heapInv (siftupAux 0 x fuel pos l) := by
  intro fuel
  induction fuel with
  | zero =>
    intro pos l hf hpos hB1 hD
    simp only [siftupAux]
    unfold siftdown
    apply siftdownAux_heapInv x pos pos l (le_refl _) hpos hB1
    · intro c hpc hc
      have := hpc.lt
      rcases hpc with h1 | h2 <;> omega
    · exact hD
  | succ fuel ih =>
    intro pos l hf hpos hB1 hD
    simp only [siftupAux]
    by_cases hchild : 2 * pos + 1 < l.length
    · rw [if_pos hchild]
      have hc1 : pickChild l pos < l.length := pickChild_lt hchild
      rw [List.getElem?_eq_getElem hc1]
      simp only
      set c := pickChild l pos with hcdef
      have hcpc : PC pos c := pickChild_pc hchild
      have hclt : pos < c := hcpc.lt
      have hcmin : ∀ d, PC pos d → ∀ (hd : d < l.length), (l[c]).t ≤ (l[d]).t :=
        pickChild_min hchild hc1
      apply ih c (l.set pos (l[c]))
      · have : 2 * pos + 1 ≤ c := by
          rcases hcpc with h1 | h2 <;> omega
        simp only [List.length_set]
        omega
      · simpa using hc1
      · -- pairs avoiding the new hole `c`
        intro i d hpd hic hdc hi hdlt
        have hi2 : i < l.length := by simpa using hi
        have hd2 : d < l.length := by simpa using hdlt
        by_cases hip : i = pos
        · subst hip
          have hdp : d ≠ i := Nat.ne_of_gt hpd.lt
          rw [List.getElem_set_self (by simpa using hi2),
            List.getElem_set_ne (fun h2 => hdp h2.symm) hdlt]
          exact hcmin d hpd hd2
        · by_cases hdp : d = pos
          · subst hdp
            have hipar : i = (d - 1) / 2 := hpd.parent_eq
            have hdpos : 0 < d := by
              have := hpd.lt
              omega
            rw [List.getElem_set_self (by simpa using hd2),
              List.getElem_set_ne (by omega) hi]
            have := hD c hcpc hdpos hc1 (hipar ▸ hi2)
            exact hipar ▸ this
          · rw [List.getElem_set_ne (fun h2 => hip h2.symm) hi,
              List.getElem_set_ne (fun h2 => hdp h2.symm) hdlt]
            exact hB1 i d hpd hip hdp hi2 hd2
      · -- the parent of the new hole `c` (namely `pos`) fits below its children
        intro d hcd hc0 hdlt hq
        have hd2 : d < l.length := by simpa using hdlt
        have hqpos : (c - 1) / 2 = pos := (hcpc.parent_eq).symm
        have hdnepos : d ≠ pos := by
          have := hcd.lt
          omega
        simp only [hqpos]
        rw [List.getElem_set_self (by simpa using hpos),
          List.getElem_set_ne (fun h2 => hdnepos h2.symm) hdlt]
        have hcne : c ≠ pos := Nat.ne_of_gt hclt
        exact hB1 c d hcd hcne hdnepos hc1 hd2
    · rw [if_neg hchild]
      unfold siftdown
      apply siftdownAux_heapInv x pos pos l (le_refl _) hpos hB1
      · intro d hpd hd
        have := hpd.lt
        rcases hpd with h1 | h2 <;> omega
      · exact hD

/-- `heapq.heappop` preserves the heap invariant. -/
theorem heappop_heapInv {l : List Ev} (h : heapInv l) {e : Ev} {l2 : List Ev}
    (hp : heappop l = some (e, l2)) : heapInv l2 := by
  unfold heappop at hp
  cases hlast : l.getLast? with
  | none => rw [hlast] at hp; exact absurd hp (by simp)
  | some lastelt =>
    rw [hlast] at hp
    simp only at hp
    cases hhead : l.dropLast.head? with
    | none =>
      rw [hhead] at hp
      simp only [Option.some.injEq, Prod.mk.injEq] at hp
      rw [← hp.2]
      exact heapInv_nil
    | some r0 =>
      rw [hhead] at hp
      simp only [Option.some.injEq, Prod.mk.injEq] at hp
      rw [← hp.2]
      unfold siftup
      have hne : l.dropLast ≠ [] := by
        intro hnil
        rw [hnil] at hhead
        simp at hhead
      have hlen : 0 < l.dropLast.length := List.length_pos.mpr hne
      apply siftupAux_heapInv lastelt l.dropLast.length 0 l.dropLast (by omega) hlen
      · intro i c hpc _ _ hi hc
        have hi2 : i < l.length := by
          have h3 := hi
          rw [List.length_dropLast] at h3
          omega
        have hc2 : c < l.length := by
          have h3 := hc
          rw [List.length_dropLast] at h3
          omega
        simp only [List.getElem_dropLast]
        exact h i c hpc hi2 hc2
      · intro c _ hc0 _ _
        exact absurd hc0 (by omega)

/-- `heapq.heappop` returns the root of the heap. -/
theorem heappop_root {l : List Ev} {e : Ev} {l2 : List Ev}
    (hp : heappop l = some (e, l2)) (h0 : 0 < l.length) : e = l[0] := by
  unfold heappop at hp
  cases hlast : l.getLast? with
  | none => rw [hlast] at hp; exact absurd hp (by simp)
  | some lastelt =>
    rw [hlast] at hp
    simp only at hp
    cases hhead : l.dropLast.head? with
    | none =>
      rw [hhead] at hp
      simp only [Option.some.injEq, Prod.mk.injEq] at hp
      have hnil : l.dropLast = [] := by
        cases hdl : l.dropLast with
        | nil => rfl
        | cons a as => rw [hdl] at hhead; simp at hhead
      have hlen1 : l.length = 1 := by
        have := List.length_dropLast l
        rw [hnil] at this
        simp at this
        omega
      have : l.getLast? = l[0]? := by
        cases l with
        | nil => simp at h0
        | cons a as =>
          have : as = [] := by simpa using hlen1
          subst this
          simp
      rw [this, List.getElem?_eq_getElem h0] at hlast
      simp only [Option.some.injEq] at hlast
      rw [← hp.1, hlast]
    | some r0 =>
      rw [hhead] at hp
      simp only [Option.some.injEq, Prod.mk.injEq] at hp
      have hne : l.dropLast ≠ [] := by
        intro hnil
        rw [hnil] at hhead
        simp at hhead
      have hlen : 0 < l.dropLast.length := List.length_pos.mpr hne
      have hr0 : r0 = l.dropLast[0] := by
        rw [List.head?_eq_getElem?] at hhead
        rw [List.getElem?_eq_getElem hlen] at hhead
        simpa using hhead.symm
      have : l.dropLast[0] = l[0] := List.getElem_dropLast l 0 hlen
      rw [← hp.1, hr0, this]

/-- `heapq.heappop` on a heap returns an event whose time slot is minimal
among the heap's events. -/
theorem heappop_min {l : List Ev} (h : heapInv l) {e : Ev} {l2 : List Ev}
    (hp : heappop l = some (e, l2)) : ∀ f ∈ l, e.t ≤ f.t := by
  intro f hf
  have h0 : 0 < l.length := List.length_pos.mpr (by rintro rfl; simp [heappop] at hp)
  obtain ⟨j, hj, rfl⟩ := List.getElem_of_mem hf
  rw [heappop_root hp h0]
  exact h.root_min j hj h0

/-- C1 (counterexample): four events with equal time slot `5` are added to a
fresh `DefaultEventPool` in the identity order 1, 2, 3, 4, yet the scheduler
pops them in the order 1, 3, 2, 4 — not in FIFO insertion order.  The heap
compares events with `Event.__lt__`, which looks at the time slot only, and
CPython's `heapq` is not a stable queue for equal keys, so the claimed FIFO
tie-break does not hold. -/
theorem c1_fifo_counterexample :
    (drain 4 ((addEvent (addEvent (addEvent (addEvent
        (DefaultEventPool.mk 0 (some 100) []) (Ev.mk 5 1)).1
        (Ev.mk 5 2)).1 (Ev.mk 5 3)).1 (Ev.mk 5 4)).1)).map Ev.eid = [1, 3, 2, 4] ∧
      ([1, 3, 2, 4] : List Nat) ≠ [1, 2, 3, 4] := by
  constructor
  · decide
  · decide

/-- C1 (amended): the scheduler's min-heap orders pops by integer time slot
only.  `add_event` preserves the binary-heap invariant of the event list,
and `next_event` pops an event whose time slot is minimal among all events
in the pool, again preserving the invariant.  Equal-slot events are popped
in an implementation-defined order, not necessarily insertion order. -/
theorem c1_heap_orders_by_time_slot (p : DefaultEventPool) (e : Ev)
    (h : heapInv p.eventList) :
    heapInv ((addEvent p e).1.eventList) ∧
    (∀ e0 p2, nextEvent p = (some e0, p2) →
      heapInv p2.eventList ∧ ∀ f ∈ p.eventList, e0.t ≤ f.t) := by
  constructor
  · unfold addEvent
    split
    · exact h
    · exact heappush_heapInv h e
  · intro e0 p2 hne
    unfold nextEvent at hne
    cases hpop : heappop p.eventList with
    | none =>
      rw [hpop] at hne
      simp at hne
    | some pr =>
      obtain ⟨e1, rest⟩ := pr
      rw [hpop] at hne
      simp only [Prod.mk.injEq, Option.some.injEq] at hne
      obtain ⟨rfl, rfl⟩ := hne
      exact ⟨heappop_heapInv h hpop, heappop_min h hpop⟩

/-- Witness for `c1_heap_orders_by_time_slot` at a concrete one-event
pool. -/
theorem c1_heap_orders_by_time_slot_witness :
    heapInv ((addEvent (DefaultEventPool.mk 0 (some 10) [Ev.mk 1 0]) (Ev.mk 2 1)).1.eventList) :=
  (c1_heap_orders_by_time_slot (DefaultEventPool.mk 0 (some 10) [Ev.mk 1 0]) (Ev.mk 2 1)
    (by
      intro i c hpc hi hc
      have := hpc.lt
      simp at hc
      omega)).1

/-- C10: `Event.__eq__` returns true for any two events with equal `t`
(whatever their names and payloads), `Event.__hash__` then coincides, and
`Event.__lt__` — the ordering used by the scheduler heap — depends only on
the timestamps of its two arguments. -/
theorem c10_event_compare_t_only (a b a2 b2 : PyEvent)
    (hab : a.t = b.t) (ha2 : a2.t = a.t) (hb2 : b2.t = b.t) :
    pyEventEq a b = true ∧ pyEventHash a = pyEventHash b ∧
      pyEventLt a2 b2 = pyEventLt a b := by
  refine ⟨?_, ?_, ?_⟩
  · simp [pyEventEq, hab]
  · simp [pyEventHash, hab]
  · unfold pyEventLt
    rw [ha2, hb2]

/-- Witness for `c10_event_compare_t_only`: two events with time slot 5 but
different names and payloads compare equal, hash identically, and order
identically to any events with the same timestamps. -/
theorem c10_event_compare_t_only_witness :
    pyEventEq (PyEvent.mk (some 5) (some "a") 0) (PyEvent.mk (some 5) none 7) = true ∧
      pyEventHash (PyEvent.mk (some 5) (some "a") 0) = pyEventHash (PyEvent.mk (some 5) none 7) ∧
      pyEventLt (PyEvent.mk (some 5) (some "c") 3) (PyEvent.mk (some 5) (some "d") 4) =
        pyEventLt (PyEvent.mk (some 5) (some "a") 0) (PyEvent.mk (some 5) none 7) :=
  c10_event_compare_t_only _ _ _ _ rfl rfl rfl

/-! ### Random number generation (`mqns/utils/random.py`)

The process holds three independent pseudo-random generators:
`mqns.utils.random.rng` (a `numpy.random.Generator` over PCG64), the
`numpy.random` legacy global generator (used by `link_layer.py` through
`np.random.rand` and `np.random.geometric`), and the stdlib `random` module
generator (used by `mux_statistical.py`, `mux_dynamic_epr.py` and
`select.py` through `random.choice` / `random.choices`).  A pseudo-random
generator is a pure function of its seed, so the mqns generator is modelled
by its seed and draw position, and the two entropy-seeded generators by the
streams of outputs they will produce. -/

/-- The global random state of the process. -/
structure GlobalRng where
  mqnsSeed : Option Nat
  mqnsPos : Nat
  npStream : List Nat
  pyStream : List Nat
deriving DecidableEq, Repr

/-- `mqns.utils.random.set_seed`: rebind the module-global `rng` to
`npr.default_rng(npr.PCG64(seed))`.  Only the mqns generator is replaced;
the `numpy.random` legacy global generator and the stdlib `random`
generator are untouched. -/
def set_seed (seed : Option Nat) (g : GlobalRng) : GlobalRng :=
  { g with mqnsSeed := seed, mqnsPos := 0 }

/-- `np.random.geometric(p)` on the legacy `numpy.random` global generator:
consume the next output of the numpy stream.  The distribution parameter
`p` fixes the law of the draw; the value drawn in a given run is the head
of the stream (a geometric draw is at least 1, hence the default). -/
def npRandomGeometric (p : ℝ) (g : GlobalRng) : Nat × GlobalRng :=
  (g.npStream.headD 1, { g with npStream := g.npStream.tail })

/-- stdlib `random.choice(xs)`: pick an element at an index driven by the
next output of the stdlib `random` stream (`IndexError`, i.e. `none`, on an
empty sequence). -/
def randomChoice (xs : List Int) (g : GlobalRng) : Option Int × GlobalRng :=
  (xs[(g.pyStream.headD 0) % xs.length]?, { g with pyStream := g.pyStream.tail })

/-! ### Link layer (`qns/network/protocol/link_layer.py`) -/

/-- `light_speed = 2 * 10**5` km/s (module constant of `link_layer.py`). -/
def light_speed : ℚ := 2 * 10 ^ 5

/-- A quantum channel as seen by the link layer: its name and its length in
km. -/
structure QChan where
  name : String
  length : ℚ
deriving DecidableEq, Repr

/-- State of a `LinkLayer` application instance: the physical parameters
from `__init__`, the active-channel table (name ↦ (channel, next hop)), the
pending negotiations (key ↦ (channel, next hop, address)), the memory's
decoherence rate (`self.memory.decoherence_rate`), the current simulated
time `tc` in seconds, and the global random state. -/
structure LinkLayerState where
  alpha_db_per_km : ℚ
  eta_s : ℚ
  eta_d : ℚ
  frequency : ℚ
  attempt_rate : ℚ
  decoherence_rate : ℚ
  active_channels : List (String × QChan × String)
  pending_negoc : List (String × QChan × String × Nat)
  tc : ℚ
  rng : GlobalRng

/-- `LinkLayer.loss_based_success_prob`: success probability from the fiber
loss model, `p = p_bsa · η_s² · η_d² · 10^(−α·L/10)` with `p_bsa = 0.5`. -/
noncomputable def loss_based_success_prob (ll : LinkLayerState) (link_length_km : ℚ) : ℝ :=
  let p_bsa : ℝ := 0.5
  let p_fiber : ℝ := (10 : ℝ) ^ (((-ll.alpha_db_per_km * link_length_km / 10 : ℚ) : ℝ))
  p_bsa * (ll.eta_s : ℝ) ^ 2 * (ll.eta_d : ℝ) ^ 2 * p_fiber

/-- `LinkLayer.skip_ahead_entanglement`: draw `k ~ Geometric(p)` from
`np.random` and return the relative time of the successful attempt,
`(k−1)·max(4.5τ, 1/frequency) + 5τ` with `τ = L/light_speed`, together with
`k` and the advanced random state. -/
noncomputable def skip_ahead_entanglement (ll : LinkLayerState) (link_length_km : ℚ) :
    ℚ × Nat × GlobalRng :=
  let reset_time := 1 / ll.frequency
  let tau := link_length_km / light_speed
  let p := loss_based_success_prob ll link_length_km
  let kg := npRandomGeometric p ll.rng
  let attempt_duration := max (4.5 * tau) reset_time
  let t_success := ((kg.1 : ℚ) - 1) * attempt_duration + 5 * tau
  (t_success, kg.1, kg.2)

/-- A `do_successful_attempt` event scheduled by `generate_entanglement`:
its absolute time in seconds, the attempt count and the reservation data. -/
structure ScheduledAttempt where
  t : ℚ
  attempts : Nat
  address : Nat
  key : String

/-- `LinkLayer.generate_entanglement`: raise if the channel is not active;
raise if `L ≥ 2·light_speed·t_mem` with `t_mem = 1/decoherence_rate`;
otherwise skip ahead and schedule `do_successful_attempt` at
`tc + succ_attempt_time`. -/
noncomputable def generate_entanglement (ll : LinkLayerState) (qchannel : QChan)
    (address : Nat) (key : String) : Except PyErr (ScheduledAttempt × GlobalRng) :=
  if (ll.active_channels.lookup qchannel.name).isNone then
    .error (.exception "Qchannel not active")
  else
    let t_mem := 1 / ll.decoherence_rate
    if qchannel.length ≥ 2 * light_speed * t_mem then
      .error (.exception "Qchannel too long for entanglement attempt.")
    else
      let r := skip_ahead_entanglement ll qchannel.length
      .ok ({ t := ll.tc + r.1, attempts := r.2.1, address := address, key := key }, r.2.2)

/-- The `epr_ok` branch of `LinkLayer.handle_negociation`: look up the
pending negotiation for `key` (`KeyError` if absent), call
`generate_entanglement`, then drop the pending entry. -/
noncomputable def handle_negociation_epr_ok (ll : LinkLayerState) (key : String) :
    Except PyErr (ScheduledAttempt × LinkLayerState) :=
  match ll.pending_negoc.lookup key with
  | none => .error (.keyError key)
  | some (qchannel, _next_hop, address) =>
    match generate_entanglement ll qchannel address key with
    | .error e => .error e
    | .ok (sched, g2) =>
      .ok (sched, { ll with rng := g2,
                            pending_negoc := ll.pending_negoc.filter (fun kv => kv.1 ≠ key) })

/-- Timing mode of a node (`qns.network.TimingModeEnum`). -/
inductive TimingMode where
  | async
  | sync
  | lsync
deriving DecidableEq, Repr

/-- A `start_negociation` event scheduled by `handle_active_channel`: its
absolute time in seconds and the memory address it negotiates for. -/
structure ScheduledNegotiation where
  t : ℚ
  address : Nat
deriving DecidableEq, Repr

/-- Loop body of `LinkLayer.handle_active_channel`: for the `i`-th slot of
the channel's memory, schedule `start_negociation` at
`tc + i * 1/attempt_rate` when the slot is empty and raise when it is
occupied. -/
def scheduleNegotiations (tc rate : ℚ) : Nat → List (Nat × Option String) →
    Except PyErr (List ScheduledNegotiation)
  | _, [] => .ok []
  | i, (addr, none) :: rest =>
    match scheduleNegotiations tc rate (i + 1) rest with
    | .ok evs => .ok ({ t := tc + i * (1 / rate), address := addr } :: evs)
    | .error e => .error e
  | _, (_, some _) :: _ => .error (.exception "PROBLEM")

/-- The `LinkLayerManageActiveChannels`/`ADD` branch of
`LinkLayer.handle_event`: raise when the channel is already active,
otherwise record it as active; in ASYNC mode run `handle_active_channel`
(which schedules the negotiation starts); in LSYNC mode only park the
channel in `waiting_channels`.  No feasibility check on the channel length
happens anywhere on this path. -/
def ll_handle_manage_add (ll : LinkLayerState) (timing : TimingMode) (qchannel : QChan)
    (next_hop : String) (qubits : List (Nat × Option String)) :
    Except PyErr (LinkLayerState × List ScheduledNegotiation) :=
  if (ll.active_channels.lookup qchannel.name).isSome then
    .error (.exception "Qchannel already handled")
  else
    let ll2 := { ll with active_channels := (qchannel.name, qchannel, next_hop) :: ll.active_channels }
    match timing with
    | .async =>
      match scheduleNegotiations ll.tc ll.attempt_rate 0 qubits with
      | .ok evs => .ok (ll2, evs)
      | .error e => .error e
    | .lsync => .ok (ll2, [])
    | .sync => .ok (ll2, [])

/-- A link-layer state used to exercise the embedded link layer on concrete
inputs: α = 0.2 dB/km, unit efficiencies, frequency 80 MHz, attempt rate
1 MHz, memory decoherence rate 10 s⁻¹ (T_coh = 0.1 s), one active channel
`q1` of length 20 km with one pending negotiation `k1` for address 0. -/
def llDemo : LinkLayerState :=
  { alpha_db_per_km := 1 / 5
    eta_s := 1
    eta_d := 1
    frequency := 80000000
    attempt_rate := 1000000
    decoherence_rate := 10
    active_channels := [("q1", QChan.mk "q1" 20, "n2")]
    pending_negoc := [("k1", QChan.mk "q1" 20, "n2", 0)]
    tc := 0
    rng := GlobalRng.mk none 0 [2] [] }

/-- C3 (counterexample): two runs whose global random state agrees on
everything `set_seed` controls — both are reseeded with seed 100 — but
whose `numpy.random` legacy global generator will produce a different next
output, draw different geometric attempt counts in
`skip_ahead_entanglement`, hence schedule different attempt times and end
with different counters.  `set_seed` does not reset the `np.random` stream
the link layer actually samples from, so seeding alone does not make runs
bit-identical. -/
theorem c3_counterexample :
    (skip_ahead_entanglement
        { llDemo with rng := set_seed (some 100) (GlobalRng.mk none 5 [2] []) } 20).2.1 = 2 ∧
    (skip_ahead_entanglement
        { llDemo with rng := set_seed (some 100) (GlobalRng.mk none 5 [3] []) } 20).2.1 = 3 ∧
    (2 : Nat) ≠ 3 := by
  refine ⟨rfl, rfl, by decide⟩

/-- C3 (amended): `set_seed(s)` resets exactly the mqns generator
(`mqns.utils.random.rng`); the `numpy.random` stream sampled by
`np.random.geometric` in the link layer and the stdlib `random` stream
sampled by `random.choice` in the mux schemes are left untouched, and
draws from them are unaffected by reseeding.  Determinism under `set_seed`
therefore holds only for draws from the mqns generator. -/
theorem c3_set_seed_resets_only_mqns_stream (s : Option Nat) (g : GlobalRng) (p : ℝ)
    (xs : List Int) :
    (set_seed s g).mqnsSeed = s ∧ (set_seed s g).mqnsPos = 0 ∧
      (set_seed s g).npStream = g.npStream ∧ (set_seed s g).pyStream = g.pyStream ∧
      (npRandomGeometric p (set_seed s g)).1 = (npRandomGeometric p g).1 ∧
      (randomChoice xs (set_seed s g)).1 = (randomChoice xs g).1 :=
  ⟨rfl, rfl, rfl, rfl, rfl, rfl⟩

/-- C4: on receiving `epr_ok` from the neighbor, the link layer draws
`k ~ Geometric(p)` from `np.random` and schedules `do_successful_attempt`
exactly `(k−1)·max(4.5τ, 1/frequency) + 5τ` seconds after now, where
`τ = L/light_speed`; and the distribution parameter used for the draw is
`p = 0.5·η_s²·η_d²·10^(−α·L/10)`. -/
theorem c4_epr_ok_schedules_attempt (ll : LinkLayerState) (key : String)
    (qchannel : QChan) (next_hop : String) (address : Nat)
    (hkey : ll.pending_negoc.lookup key = some (qchannel, next_hop, address))
    (hactive : (ll.active_channels.lookup qchannel.name).isSome)
    (hfeasible : qchannel.length < 2 * light_speed * (1 / ll.decoherence_rate)) :
    handle_negociation_epr_ok ll key = .ok
      ({ t := ll.tc + ((((ll.rng.npStream.headD 1 : Nat) : ℚ) - 1) *
              max (4.5 * (qchannel.length / light_speed)) (1 / ll.frequency) +
              5 * (qchannel.length / light_speed)),
         attempts := ll.rng.npStream.headD 1,
         address := address,
         key := key },
       { ll with rng := { ll.rng with npStream := ll.rng.npStream.tail },
                 pending_negoc := ll.pending_negoc.filter (fun kv => kv.1 ≠ key) }) ∧
      loss_based_success_prob ll qchannel.length =
        0.5 * (ll.eta_s : ℝ) ^ 2 * (ll.eta_d : ℝ) ^ 2 *
          (10 : ℝ) ^ (((-ll.alpha_db_per_km * qchannel.length / 10 : ℚ) : ℝ)) := by
  constructor
  · unfold handle_negociation_epr_ok
    rw [hkey]
    dsimp only
    unfold generate_entanglement
    cases hopt : ll.active_channels.lookup qchannel.name with
    | none =>
      rw [hopt] at hactive
      simp at hactive
    | some v =>
      simp only [Option.isNone_some, Bool.false_eq_true, if_false]
      rw [if_neg (not_le.mpr hfeasible)]
      simp only [skip_ahead_entanglement, npRandomGeometric]
  · unfold loss_based_success_prob
    ring

/-- Witness for `c4_epr_ok_schedules_attempt` on `llDemo`: the resulting
event is actually scheduled. -/
theorem c4_epr_ok_schedules_attempt_witness :
    (handle_negociation_epr_ok llDemo "k1").toOption.isSome = true := by
  rw [(c4_epr_ok_schedules_attempt llDemo "k1" (QChan.mk "q1" 20) "n2" 0 rfl rfl
    (by norm_num [light_speed, llDemo])).1]
  rfl

/-- C8 (counterexample): installing a path over a channel of length
100000 km on a memory with T_coh = 0.1 s — an infeasible channel, since
`100000 ≥ 2·light_speed·T_coh = 40000` — succeeds without any error: the
ADD branch of `LinkLayer.handle_event` activates the channel and schedules
the negotiation start without ever checking the channel length.  The
feasibility check only runs later, inside `generate_entanglement`, after
the `epr_init`/`epr_ok` handshake round trip. -/
theorem c8_counterexample :
    (ll_handle_manage_add { llDemo with active_channels := [] } TimingMode.async
        (QChan.mk "q1" 100000) "n2" [(0, none)]).toOption.isSome = true ∧
      (100000 : ℚ) ≥ 2 * light_speed * (1 / (llDemo).decoherence_rate) := by
  constructor
  · rfl
  · norm_num [light_speed, llDemo]

/-- C8 (amended): for an infeasible channel (`L ≥ 2·light_speed·T_coh`),
the link errors out when the first `epr_ok` for the channel is handled —
`generate_entanglement` raises before any `do_successful_attempt` is
scheduled — rather than at path-install time. -/
theorem c8_infeasible_errors_on_epr_ok (ll : LinkLayerState) (key : String)
    (qchannel : QChan) (next_hop : String) (address : Nat)
    (hkey : ll.pending_negoc.lookup key = some (qchannel, next_hop, address))
    (hactive : (ll.active_channels.lookup qchannel.name).isSome)
    (hinfeasible : qchannel.length ≥ 2 * light_speed * (1 / ll.decoherence_rate)) :
    handle_negociation_epr_ok ll key =
      .error (.exception "Qchannel too long for entanglement attempt.") := by
  unfold handle_negociation_epr_ok
  rw [hkey]
  dsimp only
  unfold generate_entanglement
  cases hopt : ll.active_channels.lookup qchannel.name with
  | none =>
    rw [hopt] at hactive
    simp at hactive
  | some v =>
    simp only [Option.isNone_some, Bool.false_eq_true, if_false]
    rw [if_pos hinfeasible]

/-- Witness for `c8_infeasible_errors_on_epr_ok`: a pending negotiation on
an active 100000 km channel with T_coh = 0.1 s errors out. -/
theorem c8_infeasible_errors_on_epr_ok_witness :
    handle_negociation_epr_ok
        { llDemo with active_channels := [("q1", QChan.mk "q1" 100000, "n2")],
                      pending_negoc := [("k1", QChan.mk "q1" 100000, "n2", 0)] } "k1" =
      .error (.exception "Qchannel too long for entanglement attempt.") :=
  c8_infeasible_errors_on_epr_ok _ "k1" (QChan.mk "q1" 100000) "n2" 0 rfl rfl
    (by norm_num [light_speed, llDemo])

/-! ### Forwarder (`qns/network/protocol/proactive_routing.py` with
`qns/network/protocol/fib.py`) -/

/-- A FIB entry as built by `ForwardingInformationBase.add_entry`. -/
structure FibEntry where
  path_id : Nat
  path_vector : List String
  swap_sequence : List Int
  received_swaps : List (String × Int)
  swapped_self : Int
deriving DecidableEq, Repr

/-- Python `list.index(x)`: position of the first occurrence, `ValueError`
when absent. -/
def listIndex (l : List String) (x : String) : Except PyErr Nat :=
  match l.indexOf? x with
  | some i => .ok i
  | none => .error (.valueError x)

/-- Python `seq[i]` on a list of ints: `IndexError` when out of range. -/
def listGetInt (l : List Int) (i : Nat) : Except PyErr Int :=
  match l[i]? with
  | some v => .ok v
  | none => .error .indexError

/-- `ProactiveRouting.eval_swapping_conditions`: look up the partner's and
the own node's rank in the FIB swap sequence; eligible exactly when the
partner's rank is greater than or equal to the own rank. -/
def eval_swapping_conditions (fib_entry : FibEntry) (own partner : String) :
    Except PyErr Bool :=
  match listIndex fib_entry.path_vector partner with
  | .error e => .error e
  | .ok partner_idx =>
    match listGetInt fib_entry.swap_sequence partner_idx with
    | .error e => .error e
    | .ok partner_rank =>
      match listIndex fib_entry.path_vector own with
      | .error e => .error e
      | .ok own_idx =>
        match listGetInt fib_entry.swap_sequence own_idx with
        | .error e => .error e
        | .ok own_rank => .ok (decide (partner_rank ≥ own_rank))

/-- Outcome of the `QubitEntangledEvent` branch of
`ProactiveRouting.handle_event`. -/
inductive QEOutcome where
  | advancedToPurif
  | held
  | notAllocated
deriving DecidableEq, Repr

/-- The forwarder state consulted by `handle_event`: node name, FIB table
and the names of neighbors reachable by a quantum channel. -/
structure ForwarderState where
  ownName : String
  fib : List (Nat × FibEntry)
  qchannels : List String
deriving DecidableEq, Repr

/-- The `QubitEntangledEvent` branch of `ProactiveRouting.handle_event`:
with an allocated `pid` and an installed FIB entry, the qubit advances to
PURIF (and onward through `purif` to ELIGIBLE) precisely when
`eval_swapping_conditions` accepts the entangling neighbor as partner;
otherwise it stays put. -/
def handle_qubit_entangled (st : ForwarderState) (qubitPid : Option Nat)
    (neighbor : String) : Except PyErr QEOutcome :=
  match qubitPid with
  | none => .ok .notAllocated
  | some pid =>
    match st.fib.lookup pid with
    | none => .error (.exception "No FIB entry found for pid")
    | some fib_entry =>
      match eval_swapping_conditions fib_entry st.ownName neighbor with
      | .error e => .error e
      | .ok true =>
        if neighbor ∈ st.qchannels then .ok .advancedToPurif
        else .error (.exception "No qchannel found for neighbor")
      | .ok false => .ok .held

/-- C5: a qubit entangled on a path with an installed FIB entry advances
towards swapping (ENTANGLED to PURIF and onward) if and only if the
partner's rank in the swap sequence is at least the own node's rank. -/
theorem c5_advance_iff_partner_rank_ge (st : ForwarderState) (pid : Nat)
    (fib_entry : FibEntry) (neighbor : String) (pi oi : Nat) (pr orank : Int)
    (hfib : st.fib.lookup pid = some fib_entry)
    (hqc : neighbor ∈ st.qchannels)
    (hpidx : fib_entry.path_vector.indexOf? neighbor = some pi)
    (hoidx : fib_entry.path_vector.indexOf? st.ownName = some oi)
    (hpr : fib_entry.swap_sequence[pi]? = some pr)
    (hor : fib_entry.swap_sequence[oi]? = some orank) :
    (handle_qubit_entangled st (some pid) neighbor = .ok .advancedToPurif ↔ pr ≥ orank) ∧
      (handle_qubit_entangled st (some pid) neighbor = .ok .held ↔ ¬ pr ≥ orank) := by
  unfold handle_qubit_entangled eval_swapping_conditions listIndex listGetInt
  simp only [hfib, hpidx, hoidx, hpr, hor]
  by_cases h : pr ≥ orank
  · simp [h, hqc]
  · simp [h]

/-- Witness for `c5_advance_iff_partner_rank_ge`: node `R1` on route
`[S, R1, D]` with swap sequence `[2, 1, 2]` advances a qubit entangled with
neighbor `S` (partner rank 2 ≥ own rank 1). -/
theorem c5_advance_iff_partner_rank_ge_witness :
    handle_qubit_entangled
        (ForwarderState.mk "R1"
          [(7, FibEntry.mk 7 ["S", "R1", "D"] [2, 1, 2] [] 0)] ["S", "D"])
        (some 7) "S" = .ok .advancedToPurif :=
  ((c5_advance_iff_partner_rank_ge
      (ForwarderState.mk "R1" [(7, FibEntry.mk 7 ["S", "R1", "D"] [2, 1, 2] [] 0)] ["S", "D"])
      7 (FibEntry.mk 7 ["S", "R1", "D"] [2, 1, 2] [] 0) "S" 0 1 2 1
      rfl (by decide) rfl rfl rfl rfl).1).mpr (by decide)

/-! ### SWAP_UPDATE handling (`ProactiveRouting.handle_signaling`)

The router state for signaling: node name, FIB, and the per-channel
memories with their slots.  An EPR stored in a slot is represented by its
name (the `SWAP_UPDATE` message carries `epr` — the old EPR's name — and
`new_epr` — the replacement object). -/

/-- One memory slot: its address and the name of the stored EPR, if any. -/
structure MemSlot where
  addr : Nat
  eprName : Option String
deriving DecidableEq, Repr

/-- One per-channel memory of the node. -/
structure RouterMem where
  name : String
  slots : List MemSlot
deriving DecidableEq, Repr

/-- Node state consulted by `handle_signaling`. -/
structure RouterState where
  ownName : String
  fib : List (Nat × FibEntry)
  memories : List RouterMem
deriving DecidableEq, Repr

/-- `ProactiveRouting.get_memory_qubit`: scan all memories for a slot
holding the EPR of the given name; return (memory index, address). -/
def get_memory_qubit (mems : List RouterMem) (eprName : String) : Option (Nat × Nat) :=
  match mems.findIdx? (fun qm => (qm.slots.find? (fun s => s.eprName = some eprName)).isSome) with
  | none => none
  | some mi =>
    match mems[mi]? with
    | none => none
    | some qm =>
      match qm.slots.find? (fun s => s.eprName = some eprName) with
      | none => none
      | some s => some (mi, s.addr)

/-- Replace the EPR stored at `addr` of memory `mi` by the new EPR
(`qmem.read(address)` followed by `qmem.write(new_epr, address)` at the same
address). -/
def replaceSlot (mems : List RouterMem) (mi addr : Nat) (newName : String) : List RouterMem :=
  match mems[mi]? with
  | none => mems
  | some qm =>
    mems.set mi
      { qm with
        slots := qm.slots.map
          (fun s => if s.addr = addr then { s with eprName := some newName } else s) }

/-- A `SWAP_UPDATE` classical message (the dictionary built by
`ProactiveRouting.eligible`). -/
structure SwapUpdateMsg where
  path_id : Nat
  swapping_node : String
  partner : String
  epr : String
  new_epr : String
  results : List (String × Int)
  cycle : Int
  destination : String
  fwd : Bool
deriving DecidableEq, Repr

/-- Outcome of the `SWAP_UPDATE` branch of `handle_signaling`. -/
inductive SUOutcome where
  | replaced (advanced : Bool)
  | droppedDesync
  | forwarded (appended : Bool)
deriving DecidableEq, Repr

/-- The `SWAP_UPDATE` branch of `ProactiveRouting.handle_signaling`.

When this node is the destination and `cycle == swapped_self + 1`, the EPR
named in the message is replaced in its slot by the new EPR and eligibility
is re-evaluated against the new partner (`replaced advanced`).  When the
node is the destination but the EPR is gone, or `cycle ≤ swapped_self`, the
code executes `log.debut(...)` — the logging module has no `debut`
attribute, so an `AttributeError` is raised instead of a silent drop.  Only
the desynchronized case `cycle > swapped_self` returns silently.  A
non-destination node appends its result and forwards when it has already
swapped for the cycle; otherwise it hits `log.debut` as well. -/
def handle_swap_update (st : RouterState) (msg : SwapUpdateMsg) :
    Except PyErr (RouterState × SUOutcome) :=
  match st.fib.lookup msg.path_id with
  | none => .error (.exception "FIB entry not found")
  | some fib_entry =>
    if msg.destination = st.ownName then
      if msg.cycle = fib_entry.swapped_self + 1 then
        match get_memory_qubit st.memories msg.epr with
        | some (mi, addr) =>
          let st2 := { st with memories := replaceSlot st.memories mi addr msg.new_epr }
          match eval_swapping_conditions fib_entry st.ownName msg.partner with
          | .error e => .error e
          | .ok advanced => .ok (st2, .replaced advanced)
        | none => .error (.attributeError "debut")
      else if msg.cycle > fib_entry.swapped_self then
        .ok (st, .droppedDesync)
      else
        .error (.attributeError "debut")
    else
      if fib_entry.swapped_self ≥ msg.cycle then
        .ok (st, .forwarded true)
      else
        .error (.attributeError "debut")

/-- A concrete router for exercising `handle_swap_update`: node `R1` on
route `[S, R1, D]`, swap sequence `[2, 1, 2]`, already swapped 3 times,
holding EPR `eprA` at address 0 of memory `q1`. -/
def ruDemo : RouterState :=
  { ownName := "R1"
    fib := [(7, FibEntry.mk 7 ["S", "R1", "D"] [2, 1, 2] [] 3)]
    memories := [RouterMem.mk "q1" [MemSlot.mk 0 (some "eprA")]] }

/-- A `SWAP_UPDATE` for `ruDemo` with destination `R1` and the expected
next cycle 4. -/
def suDemo : SwapUpdateMsg :=
  { path_id := 7
    swapping_node := "S"
    partner := "D"
    epr := "eprA"
    new_epr := "eprB"
    results := []
    cycle := 4
    destination := "R1"
    fwd := false }

/-- C2: evaluation of `handle_signaling` at the failing inputs.  The claim
(and the spec) says every stale `SWAP_UPDATE` — EPR already gone, or cycle
at or below the node's own swap count — is dropped silently; the code
instead calls `log.debut`, a misspelling of `log.debug`, and raises
`AttributeError`.  The same typo fires for a non-destination node that has
not yet swapped for the cycle, so such messages are not forwarded either.
Only the desynchronized case (`cycle > swapped_self + 1`) and the happy
path (EPR present, `cycle = swapped_self + 1`, which replaces the EPR in
its slot and re-evaluates eligibility) behave as specified. -/
theorem c2_stale_swap_update_raises :
    handle_swap_update ruDemo { suDemo with epr := "eprGone" } =
        .error (.attributeError "debut") ∧
      handle_swap_update ruDemo { suDemo with cycle := 3 } =
        .error (.attributeError "debut") ∧
      handle_swap_update ruDemo { suDemo with destination := "S", cycle := 5 } =
        .error (.attributeError "debut") ∧
      handle_swap_update ruDemo { suDemo with cycle := 5 } =
        .ok (ruDemo, .droppedDesync) ∧
      handle_swap_update ruDemo suDemo =
        .ok ({ ruDemo with
                memories := [RouterMem.mk "q1" [MemSlot.mk 0 (some "eprB")]] },
             .replaced true) := by
  exact ⟨rfl, rfl, rfl, rfl, rfl⟩

/-! ### Quantum memory (`qns/entity/memory/memory.py`) -/

/-- A memory qubit record: address and optional static path allocation. -/
structure MemQubit where
  addr : Nat
  pid : Option Nat
deriving DecidableEq, Repr

/-- `QuantumMemory`: capacity, slot array (qubit record plus optionally the
name of the stored EPR), usage count and the decoherence rate. -/
structure QuantumMemory where
  capacity : Nat
  storage : List (MemQubit × Option String)
  usage : Nat
  decoherence_rate : ℚ
deriving DecidableEq, Repr

/-- `QuantumMemory.is_full`. -/
def QuantumMemory.is_full (m : QuantumMemory) : Bool :=
  decide (m.capacity > 0) && decide (m.usage ≥ m.capacity)

/-- The slot-selection loop of `QuantumMemory.write`: index of the first
empty slot whose qubit matches the `pid` and `address` filters. -/
def findWriteSlot (storage : List (MemQubit × Option String)) (pid addr : Option Nat) :
    Option Nat :=
  storage.findIdx? (fun qv => qv.2.isNone &&
    (match pid with | none => true | some p => decide (qv.1.pid = some p)) &&
    (match addr with | none => true | some a => decide (qv.1.addr = a)))

/-- `QuantumMemory.write(qm, pid=None, address=None)`: `None` when the
memory is full or no matching empty slot exists; otherwise store the EPR in
the first matching empty slot and schedule the decoherence check
(`func_to_event(t, self.decohere_qubit, ...)`) at
`tc + Time(sec = 1/decoherence_rate)`.  The returned triple is the stored
qubit, the new memory state, and the absolute time of the scheduled
decoherence event.  Note: this `write` has no `delay` parameter, and the
schedule time does not include one. -/
def QuantumMemory.write (m : QuantumMemory) (now : ℚ) (qmName : String)
    (pid : Option Nat) (address : Option Nat) :
    Option (MemQubit × QuantumMemory × ℚ) :=
  if m.is_full then none
  else
    match findWriteSlot m.storage pid address with
    | none => none
    | some idx =>
      match m.storage[idx]? with
      | none => none
      | some (q, _) =>
        some (q,
          { m with storage := m.storage.set idx (q, some qmName), usage := m.usage + 1 },
          now + 1 / m.decoherence_rate)

/-- Modelled from the spec: the schedule time that C7 claims for the
`QubitDecoheredEvent` of a `write(epr, pid, addr, delay)` call —
`now + delay + 1/decoherence_rate` — stated for comparison with the
embedded `QuantumMemory.write`, which has no `delay` parameter. -/
def write_decoh_time_spec (now delay decoherence_rate : ℚ) : ℚ :=
  now + delay + 1 / decoherence_rate

/-- A concrete three-slot memory with decoherence rate 10 s⁻¹: address 0
allocated to path 7, address 1 free, address 2 occupied. -/
def qmDemo : QuantumMemory :=
  { capacity := 3
    storage := [(MemQubit.mk 0 (some 7), none),
                (MemQubit.mk 1 none, none),
                (MemQubit.mk 2 none, some "older")]
    usage := 1
    decoherence_rate := 10 }

/-- C7: evaluation of `QuantumMemory.write` at the failing input.  The
claim gives `write` a `delay` parameter and a decoherence event at
`now + delay + 1/decoherence_rate`; the `write` in
`qns/entity/memory/memory.py` accepts no `delay` (its link-layer callers
pass `delay=3τ` and `key=...`, which this signature rejects) and schedules
the decoherence check at `now + 1/decoherence_rate`.  The slot-selection
and full-memory parts of the claim do hold: the EPR lands in the first
empty slot matching the filters, and a full memory or an unmatched filter
yields `None`. -/
theorem c7_write_schedule_counterexample :
    (qmDemo.write 1 "epr1" (some 7) none).map (fun r => (r.1.addr, r.2.2)) =
        some (0, 1 + 1 / 10) ∧
      (qmDemo.write 1 "epr1" none none).map (fun r => (r.1.addr, r.2.2)) =
        some (0, 1 + 1 / 10) ∧
      write_decoh_time_spec 1 (3 * (20 / light_speed)) 10 ≠ 1 + 1 / 10 ∧
      ({ qmDemo with usage := 3 }).write 1 "epr1" none none = none ∧
      qmDemo.write 1 "epr1" (some 9) none = none := by
  refine ⟨rfl, rfl, ?_, rfl, rfl⟩
  norm_num [write_decoh_time_spec, light_speed]

/-! ### Multiplexing schemes (`qns/network/proactive/mux_statistical.py`,
`mux_dynamic_epr.py`, `mux_buffer_space.py`)

An EPR carries `tmp_path_ids : frozenset[int] | None`: the candidate path
ids it may still serve.  `frozenset[int]` is modelled by `Finset Int`. -/

/-- A Werner-state EPR as seen by the mux schemes. -/
structure MuxEpr where
  name : String
  tmp_path_ids : Option (Finset Int)
deriving DecidableEq

/-- `mux_statistical._intersect_tmp_path_ids`: assert both sets are
present, intersect, and raise when the intersection is empty. -/
def intersect_tmp_path_ids (epr0 epr1 : MuxEpr) : Except PyErr (Finset Int) :=
  match epr0.tmp_path_ids, epr1.tmp_path_ids with
  | some s0, some s1 =>
    let path_ids := s0 ∩ s1
    if path_ids = ∅ then .error (.exception "Cannot select path ID")
    else .ok path_ids
  | _, _ => .error .assertionError

/-- `MuxSchemeStatistical.swapping_succeeded`: the new EPR inherits the
intersection of the two input sets (raising via
`_intersect_tmp_path_ids` when it is empty). -/
def mux_statistical_swapping_succeeded (prev_epr next_epr new_epr : MuxEpr) :
    Except PyErr MuxEpr :=
  match intersect_tmp_path_ids prev_epr next_epr with
  | .error e => .error e
  | .ok s => .ok { new_epr with tmp_path_ids := some s }

/-- `MuxSchemeDynamicEpr.swapping_succeeded`: assert both sets present and
equal; the new EPR inherits that set. -/
def mux_dynamic_swapping_succeeded (prev_epr next_epr new_epr : MuxEpr) :
    Except PyErr MuxEpr :=
  match prev_epr.tmp_path_ids, next_epr.tmp_path_ids with
  | some s0, some s1 =>
    if s0 = s1 then .ok { new_epr with tmp_path_ids := some s0 }
    else .error .assertionError
  | _, _ => .error .assertionError

/-- `MuxSchemeBufferSpace.swapping_succeeded`: assert both sets are `None`
and leave the new EPR untouched. -/
def mux_buffer_space_swapping_succeeded (prev_epr next_epr new_epr : MuxEpr) :
    Except PyErr MuxEpr :=
  match prev_epr.tmp_path_ids, next_epr.tmp_path_ids with
  | none, none => .ok new_epr
  | _, _ => .error .assertionError

/-- C6 (counterexample): pairing two EPRs with disjoint `tmp_path_ids`
`{1}` and `{2}` under the statistical scheme does not fail gracefully with
an `n_swap_conflict` count — no such counter exists anywhere in the source
— it raises an uncaught `Exception("Cannot select path ID...")` from
`_intersect_tmp_path_ids`, aborting the handler.  (The conflict that *is*
tolerated silently, `su_parallel_avoid_conflict`, is not counted either.) -/
theorem c6_empty_intersection_counterexample :
    mux_statistical_swapping_succeeded
        (MuxEpr.mk "a" (some {1})) (MuxEpr.mk "b" (some {2})) (MuxEpr.mk "c" none) =
      .error (.exception "Cannot select path ID") := by
  rfl

/-- C6 (amended): whenever the statistical scheme completes a swap, the two
input EPRs' `tmp_path_ids` intersect and the new EPR inherits exactly that
intersection; when the intersection is empty at swap time the pairing
raises an exception (it is not counted by any `n_swap_conflict` counter,
which does not exist).  The dynamic-EPR scheme completes only when the two
sets are equal and passes that set on; the buffer-space scheme carries no
`tmp_path_ids` at all. -/
theorem c6_swap_inherits_intersection (prev_epr next_epr new_epr r : MuxEpr)
    (s0 s1 : Finset Int)
    (h0 : prev_epr.tmp_path_ids = some s0) (h1 : next_epr.tmp_path_ids = some s1) :
    (mux_statistical_swapping_succeeded prev_epr next_epr new_epr = .ok r →
        s0 ∩ s1 ≠ ∅ ∧ r.tmp_path_ids = some (s0 ∩ s1) ∧ r.name = new_epr.name) ∧
      (s0 ∩ s1 = ∅ →
        mux_statistical_swapping_succeeded prev_epr next_epr new_epr =
          .error (.exception "Cannot select path ID")) ∧
      (mux_dynamic_swapping_succeeded prev_epr next_epr new_epr = .ok r →
        s0 = s1 ∧ r.tmp_path_ids = some s0) := by
  unfold mux_statistical_swapping_succeeded mux_dynamic_swapping_succeeded
    intersect_tmp_path_ids
  rw [h0, h1]
  dsimp only
  refine ⟨?_, ?_, ?_⟩
  · intro hok
    by_cases hne : s0 ∩ s1 = ∅
    · rw [if_pos hne] at hok
      exact absurd hok (by simp)
    · rw [if_neg hne] at hok
      simp only [Except.ok.injEq] at hok
      subst hok
      exact ⟨hne, rfl, rfl⟩
  · intro hempty
    rw [if_pos hempty]
  · intro hok
    by_cases heq : s0 = s1
    · rw [if_pos heq] at hok
      simp only [Except.ok.injEq] at hok
      subst hok
      exact ⟨heq, rfl⟩
    · rw [if_neg heq] at hok
      exact absurd hok (by simp)

/-- Witness for `c6_swap_inherits_intersection` at `tmp_path_ids`
`{1, 2}` and `{2, 3}`: the statistical swap completes with intersection
`{2}`. -/
theorem c6_swap_inherits_intersection_witness :
    ({1, 2} : Finset Int) ∩ {2, 3} ≠ ∅ ∧
      (MuxEpr.mk "c" (some (({1, 2} : Finset Int) ∩ {2, 3}))).tmp_path_ids =
        some (({1, 2} : Finset Int) ∩ {2, 3}) ∧
      (MuxEpr.mk "c" (some (({1, 2} : Finset Int) ∩ {2, 3}))).name = (MuxEpr.mk "c" none).name :=
  (c6_swap_inherits_intersection (MuxEpr.mk "a" (some {1, 2})) (MuxEpr.mk "b" (some {2, 3}))
      (MuxEpr.mk "c" none) (MuxEpr.mk "c" (some (({1, 2} : Finset Int) ∩ {2, 3})))
      {1, 2} {2, 3} rfl rfl).1 (by rfl)

/-! ### WaitTime cut-off (`mqns/network/proactive/cutoff.py`) -/

/-- An EPR as seen by the cut-off scheme: name and the two endpoint node
names. -/
structure CutoffEpr where
  name : String
  src : String
  dst : String
deriving DecidableEq, Repr

/-- The pair of endpoint nodes touched by
`CutoffSchemeWaitTime._release_qubit`: the memory slots of the node whose
deadline elapsed (`own`) and of the remote partner, the two
`n_swap_cutoff` counter pairs, and the list of classical messages sent
during the handler (none are). -/
structure CutoffWorld where
  ownName : String
  ownSlots : List (Nat × Option CutoffEpr)
  partnerSlots : List (Nat × Option CutoffEpr)
  own_n_swap_cutoff : Nat × Nat
  partner_n_swap_cutoff : Nat × Nat
  messages : List String
deriving DecidableEq, Repr

/-- Destructive read by address (`memory.read(qubit.addr, must=True)`). -/
def removeByAddr : List (Nat × Option CutoffEpr) → Nat →
    Option (CutoffEpr × List (Nat × Option CutoffEpr))
  | [], _ => none
  | (a, v) :: rest, addr =>
    if a = addr then
      match v with
      | some epr => some (epr, (a, none) :: rest)
      | none => none
    else
      match removeByAddr rest addr with
      | some (epr, rest2) => some (epr, (a, v) :: rest2)
      | none => none

/-- Destructive read by EPR (`partner.memory.read(epr)`). -/
def removeByName : List (Nat × Option CutoffEpr) → String →
    Option (CutoffEpr × List (Nat × Option CutoffEpr))
  | [], _ => none
  | (a, v) :: rest, nm =>
    match v with
    | some epr =>
      if epr.name = nm then some (epr, (a, none) :: rest)
      else
        match removeByName rest nm with
        | some (epr2, rest2) => some (epr2, (a, some epr) :: rest2)
        | none => none
    | none =>
      match removeByName rest nm with
      | some (epr2, rest2) => some (epr2, (a, none) :: rest2)
      | none => none

/-- `CutoffSchemeWaitTime._release_qubit`: on the wait-time deadline, read
the qubit's EPR out of the own memory (releasing it), then *directly* read
the same EPR out of the partner node's memory (`partner.memory.read(epr)`)
and release the partner qubit through the partner forwarder's
`release_qubit`, bumping `n_swap_cutoff[0]` at the own node and
`n_swap_cutoff[1]` at the partner.  No classical message is sent — the
cross-node mutation happens by direct function call, as the code's own
TODO comment acknowledges. -/
def cutoff_release_qubit (w : CutoffWorld) (addr : Nat) : Except PyErr CutoffWorld :=
  match removeByAddr w.ownSlots addr with
  | none => .error .assertionError
  | some (epr, ownSlots2) =>
    let _partner := if epr.src = w.ownName then epr.dst else epr.src
    match removeByName w.partnerSlots epr.name with
    | some (_pepr, partnerSlots2) =>
      .ok { w with ownSlots := ownSlots2,
                   partnerSlots := partnerSlots2,
                   own_n_swap_cutoff := (w.own_n_swap_cutoff.1 + 1, w.own_n_swap_cutoff.2),
                   partner_n_swap_cutoff :=
                     (w.partner_n_swap_cutoff.1, w.partner_n_swap_cutoff.2 + 1) }
    | none =>
      .ok { w with ownSlots := ownSlots2,
                   own_n_swap_cutoff := (w.own_n_swap_cutoff.1 + 1, w.own_n_swap_cutoff.2) }

/-- The live end-to-end EPR of the C9 evaluation. -/
def c9Epr : CutoffEpr :=
  CutoffEpr.mk "eprX" "R1" "R2"

/-- C9: evaluation of the code at the failing input.  When the WaitTime
deadline elapses while `eprX` is still held at both endpoints, the handler
empties the partner's memory slot and bumps the partner's counter in the
same atomic step — the messages list stays empty, so the remote endpoint is
mutated by direct function call, not notified by a classical message as the
claim (and spec §5) requires.  The code's own comment
(`TODO release qubit at partner_fw via message instead of function call`)
confirms the intent. -/
theorem c9_cutoff_mutates_partner_without_message :
    cutoff_release_qubit
        (CutoffWorld.mk "R1" [(0, some c9Epr)] [(0, some c9Epr)] (0, 0) (0, 0) []) 0 =
      .ok (CutoffWorld.mk "R1" [(0, none)] [(0, none)] (1, 0) (0, 1) []) ∧
    ([(0, (none : Option CutoffEpr))] ≠ [(0, some c9Epr)]) ∧
    ([] : List String) = [] := by
  refine ⟨rfl, ?_, rfl⟩
  simp [c9Epr]

end Mqns
